import Mathlib

/-!
Shallow embedding of the Theia command registry
(src/packages/core/src/common/command.ts).

The registry state is a pair of association lists mirroring the two
string-keyed objects `_commands` and `_handlers`.  JavaScript exceptions
are modelled with `Except` (registration) and with a dedicated `Outcome`
type for `executeCommand`, which distinguishes a resolved promise, a
rejected promise, and a synchronous throw escaping the call.  Disposables
are modelled as data (`Disp`) together with a `dispose` action on the
state; object identity of handlers (JavaScript `===`, used by `indexOf`)
is modelled by a numeric `ref` tag, distinct objects carrying distinct
tags.
-/

namespace Theia

/-- Values passed as command arguments and returned by handlers
(JavaScript `any`, restricted to a small universe sufficient for the
claims). -/
inductive Val where
  | vnull : Val
  | vbool : Bool → Val
  | vnum : Int → Val
  | vstr : String → Val
deriving DecidableEq, Repr

/-- Rendering of a single value, as `JSON.stringify` would produce. -/
def jsonOfVal : Val → String
  | .vnull => "null"
  | .vbool true => "true"
  | .vbool false => "false"
  | .vnum n => toString n
  | .vstr s => "\"" ++ s ++ "\""

/-- Rendering of an argument array, as `JSON.stringify(args)`. -/
def stringifyArgs (args : List Val) : String :=
  "[" ++ String.intercalate "," (args.map jsonOfVal) ++ "]"

/-- Result of a handler's `execute`: a returned value or a synchronously
thrown exception. -/
inductive ExecResult where
  | ok : Val → ExecResult
  | thrown : Val → ExecResult
deriving DecidableEq, Repr

/-- The `CommandHandler` interface.  `ref` models JavaScript object
identity (`===`).  `isEnabled` and `isVisible` are the optional
predicates; `none` models an absent method. -/
structure CommandHandler where
  ref : Nat
  execute : List Val → ExecResult
  isEnabled : Option (List Val → Bool) := none
  isVisible : Option (List Val → Bool) := none

/-- The `Command` interface: id, optional label, optional icon class. -/
structure Command where
  id : String
  label : Option String := none
  iconClass : Option String := none
deriving DecidableEq, Repr

/-- Registry state: the `_commands` object (id ↦ Command) and the
`_handlers` object (id ↦ ordered handler array), both as association
lists in key-insertion order. -/
structure RegistryState where
  commands : List (String × Command) := []
  handlers : List (String × List CommandHandler) := []

/-- Property read `obj[id]` on a string-keyed object. -/
def lookupKey {α : Type} (id : String) : List (String × α) → Option α
  | [] => none
  | (k, v) :: t => if k = id then some v else lookupKey id t

/-- Property write `obj[id] = v` (updates in place, or appends a new key
at the end as JavaScript does for fresh string keys). -/
def setKey {α : Type} (id : String) (v : α) : List (String × α) → List (String × α)
  | [] => [(id, v)]
  | (k, w) :: t => if k = id then (id, v) :: t else (k, w) :: setKey id v t

/-- Application of a function to the value stored at `id`, if any. -/
def updateKey {α : Type} (id : String) (f : α → α) : List (String × α) → List (String × α)
  | [] => []
  | (k, w) :: t => if k = id then (k, f w) :: t else (k, w) :: updateKey id f t

/-- Property deletion `delete obj[id]`. -/
def deleteKey {α : Type} (id : String) : List (String × α) → List (String × α)
  | [] => []
  | (k, w) :: t => if k = id then deleteKey id t else (k, w) :: deleteKey id t

/-- The handler list currently stored for `id` (empty when no list
exists). -/
def handlersOf (st : RegistryState) (id : String) : List CommandHandler :=
  (lookupKey id st.handlers).getD []

/-- The guard `!handler.isEnabled || handler.isEnabled(...args)`: a
handler with no `isEnabled` predicate counts as enabled. -/
def enabledFor (h : CommandHandler) (args : List Val) : Bool :=
  match h.isEnabled with
  | none => true
  | some p => p args

/-- The guard `!handler.isVisible || handler.isVisible(...args)`. -/
def visibleFor (h : CommandHandler) (args : List Val) : Bool :=
  match h.isVisible with
  | none => true
  | some p => p args

/-- The left-to-right short-circuiting scan of `getActiveHandler`:
first handler for which the enabled guard holds. -/
def firstEnabled (args : List Val) : List CommandHandler → Option CommandHandler
  | [] => none
  | h :: t => if enabledFor h args then some h else firstEnabled args t

/-- The scan of `getVisibleHandler`. -/
def firstVisible (args : List Val) : List CommandHandler → Option CommandHandler
  | [] => none
  | h :: t => if visibleFor h args then some h else firstVisible args t

/-- `CommandRegistry.getActiveHandler`. -/
def getActiveHandler (st : RegistryState) (commandId : String) (args : List Val) :
    Option CommandHandler :=
  match lookupKey commandId st.handlers with
  | some hs => firstEnabled args hs
  | none => none

/-- `CommandRegistry.getVisibleHandler`. -/
def getVisibleHandler (st : RegistryState) (commandId : String) (args : List Val) :
    Option CommandHandler :=
  match lookupKey commandId st.handlers with
  | some hs => firstVisible args hs
  | none => none

/-- The rejection message built by `executeCommand` when no active
handler exists, including the `JSON.stringify(args)` rendering exactly
when `args` is non-empty. -/
def noHandlerMessage (command : String) (args : List Val) : String :=
  let argsMessage := if args.length > 0 then " (args: " ++ (stringifyArgs args ++ ")") else ""
  "The command \x27" ++ (command ++
    ("\x27 cannot be executed. There are no active handlers available for the command." ++
      argsMessage))

/-- Observable outcome of `executeCommand`: a resolved promise, a
rejected promise (the asynchronous failure channel), or a synchronous
throw escaping the call before any promise is produced. -/
inductive Outcome where
  | resolved : Val → Outcome
  | rejected : String → Outcome
  | thrown : Val → Outcome
deriving DecidableEq, Repr

/-- `CommandRegistry.executeCommand`.  A value returned by the handler is
wrapped with `Promise.resolve`; an exception thrown by `handler.execute`
is raised before `Promise.resolve` runs, hence escapes synchronously;
with no active handler the call returns `Promise.reject(message)`. -/
def executeCommand (st : RegistryState) (command : String) (args : List Val) : Outcome :=
  match getActiveHandler st command args with
  | some h =>
    match h.execute args with
    | .ok v => .resolved v
    | .thrown e => .thrown e
  | none => .rejected (noHandlerMessage command args)

/-- `CommandRegistry.isEnabled`. -/
def isEnabledQ (st : RegistryState) (command : String) (args : List Val) : Bool :=
  (getActiveHandler st command args).isSome

/-- Disposables produced by the registry: the command-registration
disposable deletes `_commands[id]`; the handler-registration disposable
does `indexOf`/`splice` on the handler array of `id`, identifying the
handler by object identity `ref`. -/
inductive Disp where
  | cmdDisp : String → Disp
  | handlerDisp : String → Nat → Disp
deriving DecidableEq, Repr

/-- Removal of the first occurrence of the handler with identity `r`
(the `indexOf` + `splice(idx, 1)` pair); no occurrence, no change. -/
def removeFirstRef (r : Nat) : List CommandHandler → List CommandHandler
  | [] => []
  | h :: t => if h.ref = r then t else h :: removeFirstRef r t

/-- Effect of releasing one disposable on the registry state. -/
def dispose (d : Disp) (st : RegistryState) : RegistryState :=
  match d with
  | .cmdDisp id => { st with commands := deleteKey id st.commands }
  | .handlerDisp id r => { st with handlers := updateKey id (removeFirstRef r) st.handlers }

/-- Modelled from the spec: the `DisposableCollection` used by
`registerCommand` comes from `./disposable`, which is not among the
provided sources; per the spec the composite disposable, on release,
releases each child disposable. -/
def disposeAll (ds : List Disp) (st : RegistryState) : RegistryState :=
  ds.foldl (fun s d => dispose d s) st

/-- `CommandRegistry.doRegisterCommand`: duplicate check against
`_commands`, then stores the command and returns the deleting
disposable.  The `Except.error` value carries the thrown message; the
state component is the state at the time of the throw. -/
def doRegisterCommand (st : RegistryState) (command : Command) :
    RegistryState × Except String Disp :=
  if (lookupKey command.id st.commands).isSome then
    (st, .error ("A command " ++ (command.id ++ " is already registered.")))
  else
    ({ st with commands := st.commands ++ [(command.id, command)] },
      .ok (.cmdDisp command.id))

/-- `CommandRegistry.registerHandler`: appends the handler to the array
for `commandId` (creating the array if absent) and returns the
`indexOf`/`splice` disposable. -/
def registerHandler (st : RegistryState) (commandId : String) (handler : CommandHandler) :
    RegistryState × Disp :=
  let handlers := (lookupKey commandId st.handlers).getD []
  ({ st with handlers := setKey commandId (handlers ++ [handler]) st.handlers },
    .handlerDisp commandId handler.ref)

/-- `CommandRegistry.registerCommand`: with a handler, pushes the result
of `doRegisterCommand` (which throws on duplicates, before
`registerHandler` can run) and of `registerHandler` into a
`DisposableCollection`; without, returns the command disposable alone. -/
def registerCommand (st : RegistryState) (command : Command)
    (handler : Option CommandHandler) : RegistryState × Except String (List Disp) :=
  match handler with
  | some h =>
    match doRegisterCommand st command with
    | (st1, .ok d1) =>
      let p := registerHandler st1 command.id h
      (p.1, .ok [d1, p.2])
    | (st1, .error e) => (st1, .error e)
  | none =>
    match doRegisterCommand st command with
    | (st1, .ok d) => (st1, .ok [d])
    | (st1, .error e) => (st1, .error e)

/-- `CommandRegistry.getCommand`. -/
def getCommand (st : RegistryState) (id : String) : Option Command :=
  lookupKey id st.commands

/-- `CommandRegistry.commandIds` (`Object.keys(this._commands)`). -/
def commandIds (st : RegistryState) : List String :=
  st.commands.map Prod.fst

/-- Number of occurrences of the handler identity `r` in a handler
list. -/
def countRef (r : Nat) : List CommandHandler → Nat
  | [] => 0
  | h :: t => (if h.ref = r then 1 else 0) + countRef r t

/-- Example handler: no predicates (always enabled and visible),
returns 42. -/
def hOn : CommandHandler := { ref := 1, execute := fun _ => .ok (.vnum 42) }

/-- Example handler: `isEnabled` always false. -/
def hOff : CommandHandler :=
  { ref := 0, execute := fun _ => .ok (.vnum 0), isEnabled := some (fun _ => false) }

/-- Example handler: `execute` throws. -/
def hBoom : CommandHandler := { ref := 2, execute := fun _ => .thrown (.vstr "boom") }

/-- The empty registry. -/
def st0 : RegistryState := {}

/-- Registry with handlers `[hOff, hOn]` registered for `"X"` in that
order. -/
def stOffOn : RegistryState := (registerHandler (registerHandler st0 "X" hOff).1 "X" hOn).1

/-- Registry with the single handler `hOn` registered for `"X"`. -/
def stOn : RegistryState := (registerHandler st0 "X" hOn).1

/-- Registry with the single handler `hBoom` registered for `"X"`. -/
def stBoom : RegistryState := (registerHandler st0 "X" hBoom).1

/-- Bridge lemma: `getActiveHandler` is the first-enabled scan of the
stored handler list (the empty list when no list exists). -/
theorem getActiveHandler_eq_firstEnabled (st : RegistryState) (id : String)
    (args : List Val) :
    getActiveHandler st id args = firstEnabled args (handlersOf st id) := by
  unfold getActiveHandler handlersOf
  split <;> simp_all [firstEnabled]

/-- Soundness of the scan: a returned handler sits at an index whose
earlier entries are all disabled. -/
theorem firstEnabled_some_spec (args : List Val) (l : List CommandHandler)
    (h : CommandHandler) (hfe : firstEnabled args l = some h) :
    ∃ i, l.get? i = some h ∧ enabledFor h args = true ∧
      ∀ j, j < i → ∀ h2, l.get? j = some h2 → enabledFor h2 args = false := by
  induction l with
  | nil => simp [firstEnabled] at hfe
  | cons a t ih =>
    by_cases ha : enabledFor a args = true
    · have hah : a = h := by simpa [firstEnabled, ha] using hfe
      subst hah
      exact ⟨0, rfl, ha, fun j hj => absurd hj (Nat.not_lt_zero j)⟩
    · have hfe2 : firstEnabled args t = some h := by
        simpa [firstEnabled, ha] using hfe
      obtain ⟨i, hi, he, hprev⟩ := ih hfe2
      refine ⟨i + 1, by simpa using hi, he, ?_⟩
      intro j hj h2 hg
      cases j with
      | zero =>
        have : a = h2 := by simpa using hg
        subst this
        exact Bool.not_eq_true _ ▸ (by simpa using ha)
      | succ j2 =>
        exact hprev j2 (Nat.lt_of_succ_lt_succ hj) h2 (by simpa using hg)

/-- Completeness of the scan: the scan yields no result exactly when
every handler in the list is disabled. -/
theorem firstEnabled_none_all (args : List Val) (l : List CommandHandler) :
    firstEnabled args l = none ↔ ∀ h ∈ l, enabledFor h args = false := by
  induction l with
  | nil => simp [firstEnabled]
  | cons a t ih =>
    by_cases ha : enabledFor a args = true
    · simp [firstEnabled, ha]
    · have ha2 : enabledFor a args = false := by
        cases hb : enabledFor a args
        · rfl
        · exact absurd hb ha
      simp [firstEnabled, ha2, ih]

/-- Determinism of the scan: the handler at the first position whose
guard holds is the one returned. -/
theorem firstEnabled_of_first (args : List Val) (l : List CommandHandler)
    (i : Nat) (h : CommandHandler) (hi : l.get? i = some h)
    (he : enabledFor h args = true)
    (hprev : ∀ j, j < i → ∀ h2, l.get? j = some h2 → enabledFor h2 args = false) :
    firstEnabled args l = some h := by
  induction l generalizing i with
  | nil => simp [List.get?] at hi
  | cons a t ih =>
    cases i with
    | zero =>
      have hah : a = h := by simpa [List.get?] using hi
      subst hah
      simp [firstEnabled, he]
    | succ i2 =>
      have ha : enabledFor a args = false := hprev 0 (Nat.succ_pos i2) a rfl
      simp only [firstEnabled, ha, Bool.false_eq_true, if_false]
      exact ih i2 (by simpa [List.get?] using hi) fun j hj h2 hg =>
        hprev (j + 1) (Nat.succ_lt_succ hj) h2 (by simpa [List.get?] using hg)

/-- C1: `getActiveHandler` scans the id's handler list in registration
order and returns exactly the first handler whose enabled guard
(`isEnabled` absent or evaluating true on the args) holds: the result is
`some h` if and only if `h` sits at a position all of whose predecessors
are disabled while `h` is enabled; the result is `none` if and only if
no handler list exists or every handler in it is disabled; in particular
with a list `[h1, h2]` where `h1` is disabled and `h2` enabled, it
returns `h2`. -/
theorem getActiveHandler_first_enabled (st : RegistryState) (id : String)
    (args : List Val) :
    (∀ h, getActiveHandler st id args = some h ↔
      ∃ i, (handlersOf st id).get? i = some h ∧ enabledFor h args = true ∧
        ∀ j, j < i → ∀ h2, (handlersOf st id).get? j = some h2 →
          enabledFor h2 args = false) ∧
    (getActiveHandler st id args = none ↔
      ∀ h ∈ handlersOf st id, enabledFor h args = false) ∧
    (∀ h1 h2, handlersOf st id = [h1, h2] → enabledFor h1 args = false →
      enabledFor h2 args = true → getActiveHandler st id args = some h2) := by
  refine ⟨?_, ?_, ?_⟩
  · intro h
    constructor
    · intro hsome
      rw [getActiveHandler_eq_firstEnabled] at hsome
      exact firstEnabled_some_spec args (handlersOf st id) h hsome
    · rintro ⟨i, hi, he, hprev⟩
      rw [getActiveHandler_eq_firstEnabled]
      exact firstEnabled_of_first args (handlersOf st id) i h hi he hprev
  · rw [getActiveHandler_eq_firstEnabled]
    exact firstEnabled_none_all args (handlersOf st id)
  · intro h1 h2 hl h1f h2t
    rw [getActiveHandler_eq_firstEnabled, hl]
    simp [firstEnabled, h1f, h2t]

/-- Witness for C1 at concrete registries: with `hOff` registered before
`hOn` for `"X"`, the disabled first handler is skipped and `hOn` is
returned; and with enabled `hOn` alone in the list, the forcing
direction yields `some hOn`. -/
theorem getActiveHandler_first_enabled_witness :
    getActiveHandler stOffOn "X" [] = some hOn ∧
    getActiveHandler stOn "X" [] = some hOn :=
  ⟨(getActiveHandler_first_enabled stOffOn "X" []).2.2 hOff hOn rfl rfl rfl,
    ((getActiveHandler_first_enabled stOn "X" []).1 hOn).mpr
      ⟨0, rfl, rfl, fun j hj => absurd hj (Nat.not_lt_zero j)⟩⟩

/-- C2: when a handler is active for the args, `executeCommand` invokes
its `execute` on exactly those args; a returned value becomes a resolved
outcome carrying it, and an exception thrown by the handler reaches the
caller unchanged, neither caught nor wrapped by the registry. -/
theorem executeCommand_invokes_handler (st : RegistryState) (id : String)
    (args : List Val) (h : CommandHandler)
    (hact : getActiveHandler st id args = some h) :
    (∀ v, h.execute args = .ok v → executeCommand st id args = .resolved v) ∧
    (∀ e, h.execute args = .thrown e → executeCommand st id args = .thrown e) := by
  constructor <;> intro x hx <;> simp [executeCommand, hact, hx]

/-- Witness for C2: a single enabled handler returning 42 yields a
resolved outcome of 42. -/
theorem executeCommand_invokes_handler_witness :
    executeCommand stOn "X" [] = .resolved (.vnum 42) :=
  (executeCommand_invokes_handler stOn "X" [] hOn rfl).1 (.vnum 42) rfl

/-- C3: with no active handler, `executeCommand` yields a rejected
(asynchronous) outcome — not a synchronous throw — whose message embeds
the command id, and embeds the `JSON.stringify` rendering of the args
whenever args were passed. -/
theorem executeCommand_no_active_handler (st : RegistryState) (id : String)
    (args : List Val) (hnone : getActiveHandler st id args = none) :
    executeCommand st id args = .rejected (noHandlerMessage id args) ∧
    (∃ pre post, noHandlerMessage id args = pre ++ (id ++ post)) ∧
    (args ≠ [] →
      ∃ pre post, noHandlerMessage id args = pre ++ (stringifyArgs args ++ post)) := by
  refine ⟨by simp [executeCommand, hnone], ⟨"The command \x27", _, rfl⟩, ?_⟩
  intro hne
  have hlen : 0 < args.length := List.length_pos.mpr hne
  refine ⟨"The command \x27" ++ (id ++
    ("\x27 cannot be executed. There are no active handlers available for the command." ++
      " (args: ")), ")", ?_⟩
  simp only [noHandlerMessage]
  rw [if_pos hlen]
  simp only [String.append_assoc]

/-- Witness for C3: executing a command with no handlers, with one
argument, rejects with the diagnostic message, which embeds the
argument rendering. -/
theorem executeCommand_no_active_handler_witness :
    executeCommand st0 "missing" [Val.vnum 1] =
      .rejected (noHandlerMessage "missing" [Val.vnum 1]) ∧
    (∃ pre post, noHandlerMessage "missing" [Val.vnum 1] =
      pre ++ (stringifyArgs [Val.vnum 1] ++ post)) :=
  ⟨(executeCommand_no_active_handler st0 "missing" [Val.vnum 1] rfl).1,
    (executeCommand_no_active_handler st0 "missing" [Val.vnum 1] rfl).2.2 (by simp)⟩

/-- C9: a synchronous exception from the active handler's `execute`
escapes `executeCommand` as a synchronous throw, never as a rejected
outcome (the rejected channel is used only for the missing-handler
case). -/
theorem executeCommand_handler_throw_sync (st : RegistryState) (id : String)
    (args : List Val) (h : CommandHandler) (e : Val)
    (hact : getActiveHandler st id args = some h)
    (hex : h.execute args = .thrown e) :
    executeCommand st id args = .thrown e ∧
    ∀ msg, executeCommand st id args ≠ .rejected msg := by
  have h1 : executeCommand st id args = .thrown e := by simp [executeCommand, hact, hex]
  refine ⟨h1, fun msg hmsg => ?_⟩
  rw [h1] at hmsg
  exact Outcome.noConfusion hmsg

/-- Witness for C9: a throwing handler makes `executeCommand` throw
synchronously. -/
theorem executeCommand_handler_throw_sync_witness :
    executeCommand stBoom "X" [] = .thrown (.vstr "boom") :=
  (executeCommand_handler_throw_sync stBoom "X" [] hBoom (.vstr "boom") rfl rfl).1

/-- Appending a fresh key makes it found. -/
theorem lookupKey_none_append {α : Type} (id : String) (v : α)
    (l : List (String × α)) (h : lookupKey id l = none) :
    lookupKey id (l ++ [(id, v)]) = some v := by
  induction l with
  | nil => simp [lookupKey]
  | cons p t ih =>
    obtain ⟨k, w⟩ := p
    by_cases hk : k = id
    · simp [lookupKey, hk] at h
    · simp only [lookupKey, hk, if_false] at h
      simp only [List.cons_append, lookupKey, hk, if_false]
      exact ih h

/-- Deletion removes the key. -/
theorem lookupKey_deleteKey {α : Type} (id : String) (l : List (String × α)) :
    lookupKey id (deleteKey id l) = none := by
  induction l with
  | nil => rfl
  | cons p t ih =>
    obtain ⟨k, w⟩ := p
    by_cases hk : k = id
    · simpa [deleteKey, hk] using ih
    · simpa [deleteKey, lookupKey, hk] using ih

/-- Deletion of one key leaves other keys untouched. -/
theorem lookupKey_deleteKey_ne {α : Type} (id id2 : String)
    (l : List (String × α)) (h : id2 ≠ id) :
    lookupKey id2 (deleteKey id l) = lookupKey id2 l := by
  have h2 : ¬(id = id2) := fun hc => h hc.symm
  induction l with
  | nil => rfl
  | cons p t ih =>
    obtain ⟨k, w⟩ := p
    by_cases hk : k = id
    · have hne : ¬(k = id2) := by rw [hk]; exact h2
      simpa [deleteKey, lookupKey, hk, hne, h2] using ih
    · by_cases hk2 : k = id2
      · simp [deleteKey, lookupKey, hk, hk2, h]
      · simpa [deleteKey, lookupKey, hk, hk2] using ih

/-- Deleting an already-deleted key changes nothing. -/
theorem deleteKey_deleteKey {α : Type} (id : String) (l : List (String × α)) :
    deleteKey id (deleteKey id l) = deleteKey id l := by
  induction l with
  | nil => rfl
  | cons p t ih =>
    obtain ⟨k, w⟩ := p
    by_cases hk : k = id
    · simpa [deleteKey, hk] using ih
    · simp [deleteKey, hk, ih]

/-- Writing a key makes it found with the written value. -/
theorem lookupKey_setKey {α : Type} (id : String) (v : α) (l : List (String × α)) :
    lookupKey id (setKey id v l) = some v := by
  induction l with
  | nil => simp [setKey, lookupKey]
  | cons p t ih =>
    obtain ⟨k, w⟩ := p
    by_cases hk : k = id
    · simp [setKey, lookupKey, hk]
    · simpa [setKey, lookupKey, hk] using ih

/-- Writing one key leaves other keys untouched. -/
theorem lookupKey_setKey_ne {α : Type} (id id2 : String) (v : α)
    (l : List (String × α)) (h : id2 ≠ id) :
    lookupKey id2 (setKey id v l) = lookupKey id2 l := by
  have h2 : ¬(id = id2) := fun hc => h hc.symm
  induction l with
  | nil => simp [setKey, lookupKey, h2]
  | cons p t ih =>
    obtain ⟨k, w⟩ := p
    by_cases hk : k = id
    · have hne : ¬(k = id2) := by rw [hk]; exact h2
      simp [setKey, lookupKey, hk, hne, h2]
    · by_cases hk2 : k = id2
      · simp [setKey, lookupKey, hk, hk2, h]
      · simpa [setKey, lookupKey, hk, hk2] using ih

/-- Updating a key maps its stored value. -/
theorem lookupKey_updateKey {α : Type} (id : String) (f : α → α)
    (l : List (String × α)) :
    lookupKey id (updateKey id f l) = (lookupKey id l).map f := by
  induction l with
  | nil => rfl
  | cons p t ih =>
    obtain ⟨k, w⟩ := p
    by_cases hk : k = id
    · simp [updateKey, lookupKey, hk]
    · simpa [updateKey, lookupKey, hk] using ih

/-- Updating one key leaves other keys untouched. -/
theorem lookupKey_updateKey_ne {α : Type} (id id2 : String) (f : α → α)
    (l : List (String × α)) (h : id2 ≠ id) :
    lookupKey id2 (updateKey id f l) = lookupKey id2 l := by
  have h2 : ¬(id = id2) := fun hc => h hc.symm
  induction l with
  | nil => rfl
  | cons p t ih =>
    obtain ⟨k, w⟩ := p
    by_cases hk : k = id
    · have hne : ¬(k = id2) := by rw [hk]; exact h2
      simp [updateKey, lookupKey, hk, hne, h2]
    · by_cases hk2 : k = id2
      · simp [updateKey, lookupKey, hk, hk2, h]
      · simpa [updateKey, lookupKey, hk, hk2] using ih

/-- Updating with a function that fixes the stored value changes
nothing. -/
theorem updateKey_eq_of_fix {α : Type} (id : String) (f : α → α)
    (l : List (String × α)) (h : ∀ v, lookupKey id l = some v → f v = v) :
    updateKey id f l = l := by
  induction l with
  | nil => rfl
  | cons p t ih =>
    obtain ⟨k, w⟩ := p
    by_cases hk : k = id
    · have hfix : f w = w := h w (by simp [lookupKey, hk])
      simp [updateKey, hk, hfix]
    · simp only [updateKey, hk, if_false, List.cons.injEq, true_and]
      exact ih fun v hv => h v (by simpa [lookupKey, hk] using hv)

/-- Example command with id `"X"`. -/
def cmdX : Command := { id := "X" }

/-- Registry with `cmdX` registered (no handler). -/
def stA : RegistryState := (registerCommand st0 cmdX none).1

/-- C4: registering a Command whose id is already registered fails
synchronously with the duplicate-registration error, leaves the whole
state (command map and every handler list) unchanged, and in particular
leaves `getCommand` at the original Command — even when a handler was
supplied, because the duplicate check runs before any handler
registration. -/
theorem registerCommand_duplicate_fails (st : RegistryState) (cmd : Command)
    (hOpt : Option CommandHandler)
    (hdup : (lookupKey cmd.id st.commands).isSome = true) :
    (registerCommand st cmd hOpt).1 = st ∧
    (registerCommand st cmd hOpt).2 =
      .error ("A command " ++ (cmd.id ++ " is already registered.")) ∧
    getCommand (registerCommand st cmd hOpt).1 cmd.id = getCommand st cmd.id ∧
    ∀ id, handlersOf (registerCommand st cmd hOpt).1 id = handlersOf st id := by
  have hdo : doRegisterCommand st cmd =
      (st, .error ("A command " ++ (cmd.id ++ " is already registered."))) := by
    simp [doRegisterCommand, hdup]
  cases hOpt <;> simp [registerCommand, hdo]

/-- Witness for C4: re-registering id `"X"` (with a handler this time)
errors and leaves the registry exactly as it was. -/
theorem registerCommand_duplicate_fails_witness :
    (registerCommand stA cmdX (some hOn)).1 = stA ∧
    (registerCommand stA cmdX (some hOn)).2 =
      .error ("A command " ++ ("X" ++ " is already registered.")) :=
  ⟨(registerCommand_duplicate_fails stA cmdX (some hOn) rfl).1,
    (registerCommand_duplicate_fails stA cmdX (some hOn) rfl).2.1⟩

/-- C10: the empty-string id passes `registerCommand` unvalidated: on a
registry not containing it, registration succeeds (no error), the
command is retrievable via `getCommand ""`, and `""` appears in
`commandIds`. -/
theorem registerCommand_empty_id_accepted (st : RegistryState)
    (label iconClass : Option String)
    (hfresh : lookupKey "" st.commands = none) :
    (registerCommand st { id := "", label := label, iconClass := iconClass } none).2 =
      .ok [Disp.cmdDisp ""] ∧
    getCommand
      (registerCommand st { id := "", label := label, iconClass := iconClass } none).1 "" =
      some { id := "", label := label, iconClass := iconClass } ∧
    "" ∈ commandIds
      (registerCommand st { id := "", label := label, iconClass := iconClass } none).1 := by
  have hnotsome : (lookupKey "" st.commands).isSome = false := by
    simp [hfresh]
  refine ⟨by simp [registerCommand, doRegisterCommand, hnotsome], ?_, ?_⟩
  · simp only [registerCommand, doRegisterCommand, hnotsome, Bool.false_eq_true, if_false,
      getCommand]
    exact lookupKey_none_append _ _ _ hfresh
  · simp [registerCommand, doRegisterCommand, hnotsome, commandIds]

/-- Removal of an absent identity changes nothing. -/
theorem removeFirstRef_of_count_zero (r : Nat) (l : List CommandHandler)
    (h : countRef r l = 0) : removeFirstRef r l = l := by
  induction l with
  | nil => rfl
  | cons a t ih =>
    by_cases ha : a.ref = r
    · rw [countRef, if_pos ha] at h
      omega
    · simp only [countRef, ha, if_false, Nat.zero_add] at h
      simp [removeFirstRef, ha, ih h]

/-- Removing the first occurrence drops the occurrence count by one. -/
theorem countRef_removeFirstRef (r : Nat) (l : List CommandHandler)
    (h : 0 < countRef r l) :
    countRef r (removeFirstRef r l) = countRef r l - 1 := by
  induction l with
  | nil => simp [countRef] at h
  | cons a t ih =>
    by_cases ha : a.ref = r
    · simp only [removeFirstRef, ha, if_true, countRef, if_pos ha]
      omega
    · have h2 : 0 < countRef r t := by simpa [countRef, ha] using h
      simp only [removeFirstRef, ha, if_false, countRef, Nat.zero_add, ih h2]

/-- Splitting view of `removeFirstRef` when the identity occurs: the
list decomposes around its first occurrence, and exactly that element is
dropped, the rest keeping their order. -/
theorem removeFirstRef_split (r : Nat) (l : List CommandHandler)
    (h : 0 < countRef r l) :
    ∃ l1 hd l2, l = l1 ++ hd :: l2 ∧ hd.ref = r ∧ countRef r l1 = 0 ∧
      removeFirstRef r l = l1 ++ l2 := by
  induction l with
  | nil => simp [countRef] at h
  | cons a t ih =>
    by_cases ha : a.ref = r
    · exact ⟨[], a, t, rfl, ha, rfl, by simp [removeFirstRef, ha]⟩
    · have h2 : 0 < countRef r t := by simpa [countRef, ha] using h
      obtain ⟨l1, hd, l2, heq, hr, hc0, hrm⟩ := ih h2
      refine ⟨a :: l1, hd, l2, by rw [heq]; rfl, hr, ?_, ?_⟩
      · simp [countRef, ha, hc0]
      · simp [removeFirstRef, ha, hrm]

/-- Registry with the same handler object `hOn` registered twice for
`"X"` (the code places no uniqueness constraint on handlers). -/
def stDup : RegistryState := (registerHandler (registerHandler st0 "X" hOn).1 "X" hOn).1

/-- Counterexample to C5: with `hOn` registered twice for `"X"`,
releasing the first registration's disposable once leaves one
occurrence, and releasing it a second time removes the other
occurrence as well — the second release is not a no-op. -/
theorem dispose_second_release_not_noop :
    handlersOf (dispose (registerHandler st0 "X" hOn).2 stDup) "X" = [hOn] ∧
    handlersOf (dispose (registerHandler st0 "X" hOn).2
      (dispose (registerHandler st0 "X" hOn).2 stDup)) "X" = [] := by
  exact ⟨rfl, rfl⟩

/-- C5 as amended: releasing a registration disposable a second time is
a no-op (same command map and handler lists) provided that, for a
handler disposable, the released handler object occurs at most once in
its id's handler list — in particular whenever no handler object was
registered twice for the same id; for Command-registration disposables
the proviso is vacuous. -/
theorem dispose_second_release_idem (st : RegistryState) (d : Disp)
    (hc : ∀ id r, d = .handlerDisp id r → countRef r (handlersOf st id) ≤ 1) :
    dispose d (dispose d st) = dispose d st := by
  cases d with
  | cmdDisp id =>
    simp only [dispose]
    rw [deleteKey_deleteKey]
  | handlerDisp id r =>
    have hcount := hc id r rfl
    simp only [dispose]
    congr 1
    apply updateKey_eq_of_fix
    intro v hv
    rw [lookupKey_updateKey] at hv
    cases hw : lookupKey id st.handlers with
    | none => rw [hw] at hv; simp at hv
    | some w =>
      rw [hw] at hv
      simp only [Option.map_some', Option.some.injEq] at hv
      subst hv
      apply removeFirstRef_of_count_zero
      have hcw : countRef r w ≤ 1 := by
        have hweq : handlersOf st id = w := by simp [handlersOf, hw]
        rwa [hweq] at hcount
      by_cases hz : countRef r w = 0
      · rw [removeFirstRef_of_count_zero r w hz]
        exact hz
      · have hpos : 0 < countRef r w := Nat.pos_of_ne_zero hz
        rw [countRef_removeFirstRef r w hpos]
        omega

/-- Witness for the amended C5: with `hOn` registered once for `"X"`,
the second release of its disposable changes nothing. -/
theorem dispose_second_release_idem_witness :
    dispose (Disp.handlerDisp "X" 1) (dispose (Disp.handlerDisp "X" 1) stOn) =
      dispose (Disp.handlerDisp "X" 1) stOn :=
  dispose_second_release_idem stOn (Disp.handlerDisp "X" 1)
    (fun id r hd => by injection hd with h1 h2; subst h1; subst h2; decide)

/-- C6: releasing the disposable of a registered handler (identity `r`,
present in the list for `id`) removes exactly the first occurrence of
that handler object from `id`'s handler list, keeps the order of the
remaining handlers, leaves every other id's handler list and the command
map unchanged, and subsequent `getActiveHandler` calls scan exactly the
remaining list. -/
theorem handler_dispose_removes_exactly_one (st : RegistryState) (id : String)
    (r : Nat) (hin : 0 < countRef r (handlersOf st id)) :
    ∃ l1 hd l2, handlersOf st id = l1 ++ hd :: l2 ∧ hd.ref = r ∧ countRef r l1 = 0 ∧
      handlersOf (dispose (.handlerDisp id r) st) id = l1 ++ l2 ∧
      (∀ id2, id2 ≠ id →
        handlersOf (dispose (.handlerDisp id r) st) id2 = handlersOf st id2) ∧
      (dispose (.handlerDisp id r) st).commands = st.commands ∧
      (∀ args, getActiveHandler (dispose (.handlerDisp id r) st) id args =
        firstEnabled args (l1 ++ l2)) := by
  obtain ⟨l1, hd, l2, heq, hr, hc0, hrm⟩ := removeFirstRef_split r (handlersOf st id) hin
  have hex : ∃ w, lookupKey id st.handlers = some w ∧ w = handlersOf st id := by
    cases hw : lookupKey id st.handlers with
    | none =>
      exfalso
      rw [handlersOf, hw] at hin
      simp [countRef] at hin
    | some w => exact ⟨w, rfl, by simp [handlersOf, hw]⟩
  obtain ⟨w, hw, hweq⟩ := hex
  have hafter : handlersOf (dispose (.handlerDisp id r) st) id = l1 ++ l2 := by
    simp only [handlersOf, dispose]
    rw [lookupKey_updateKey, hw]
    show removeFirstRef r w = l1 ++ l2
    rw [hweq, hrm]
  refine ⟨l1, hd, l2, heq, hr, hc0, hafter, ?_, rfl, ?_⟩
  · intro id2 hne
    simp only [handlersOf, dispose]
    rw [lookupKey_updateKey_ne id id2 _ _ hne]
  · intro args
    rw [getActiveHandler_eq_firstEnabled, hafter]

/-- Witness for C6: releasing `hOff`'s registration (identity 0) on the
two-handler registry removes exactly that first handler. -/
theorem handler_dispose_removes_exactly_one_witness :
    ∃ l1 hd l2, handlersOf stOffOn "X" = l1 ++ hd :: l2 ∧ hd.ref = 0 ∧
      countRef 0 l1 = 0 ∧
      handlersOf (dispose (.handlerDisp "X" 0) stOffOn) "X" = l1 ++ l2 ∧
      (∀ id2, id2 ≠ "X" →
        handlersOf (dispose (.handlerDisp "X" 0) stOffOn) id2 = handlersOf stOffOn id2) ∧
      (dispose (.handlerDisp "X" 0) stOffOn).commands = stOffOn.commands ∧
      (∀ args, getActiveHandler (dispose (.handlerDisp "X" 0) stOffOn) "X" args =
        firstEnabled args (l1 ++ l2)) :=
  handler_dispose_removes_exactly_one stOffOn "X" 0 (by decide)

/-- C7: on a registry with no Command and no handlers for `cmd.id`,
`registerCommand cmd (some h)` succeeds with the composite disposable
of the command disposable and the handler disposable; releasing both
children, in either order, makes `getCommand cmd.id` and every
`getActiveHandler cmd.id` call come out absent. -/
theorem registerCommand_composite_dispose_removes_both (st : RegistryState)
    (cmd : Command) (h : CommandHandler)
    (hfc : lookupKey cmd.id st.commands = none)
    (hfh : handlersOf st cmd.id = []) :
    ∃ st1 ds, registerCommand st cmd (some h) = (st1, .ok ds) ∧
      getCommand (disposeAll ds st1) cmd.id = none ∧
      (∀ args, getActiveHandler (disposeAll ds st1) cmd.id args = none) ∧
      getCommand (disposeAll ds.reverse st1) cmd.id = none ∧
      (∀ args, getActiveHandler (disposeAll ds.reverse st1) cmd.id args = none) := by
  have hfh2 : (lookupKey cmd.id st.handlers).getD [] = [] := hfh
  have hnotsome : (lookupKey cmd.id st.commands).isSome = false := by simp [hfc]
  refine ⟨RegistryState.mk (st.commands ++ [(cmd.id, cmd)]) (setKey cmd.id [h] st.handlers),
    [Disp.cmdDisp cmd.id, Disp.handlerDisp cmd.id h.ref], ?_, ?_, ?_, ?_, ?_⟩
  · simp [registerCommand, doRegisterCommand, hnotsome, registerHandler, hfh2]
  · simp [disposeAll, dispose, getCommand, lookupKey_deleteKey]
  · intro args
    simp [disposeAll, dispose, getActiveHandler, lookupKey_updateKey, lookupKey_setKey,
      removeFirstRef, firstEnabled]
  · simp [disposeAll, dispose, getCommand, lookupKey_deleteKey]
  · intro args
    simp [disposeAll, dispose, getActiveHandler, lookupKey_updateKey, lookupKey_setKey,
      removeFirstRef, firstEnabled]

/-- Witness for C7: registering `cmdX` with handler `hOn` on the empty
registry, then releasing the composite, removes both entries. -/
theorem registerCommand_composite_dispose_removes_both_witness :
    ∃ st1 ds, registerCommand st0 cmdX (some hOn) = (st1, .ok ds) ∧
      getCommand (disposeAll ds st1) cmdX.id = none ∧
      (∀ args, getActiveHandler (disposeAll ds st1) cmdX.id args = none) ∧
      getCommand (disposeAll ds.reverse st1) cmdX.id = none ∧
      (∀ args, getActiveHandler (disposeAll ds.reverse st1) cmdX.id args = none) :=
  registerCommand_composite_dispose_removes_both st0 cmdX hOn rfl rfl

/-- C8: releasing the Command-registration disposable removes only the
Command metadata: the whole handler map is untouched (so dispatch via
`getActiveHandler` is unchanged for every id), the released id's
`getCommand` becomes absent, and every other id's `getCommand` is
unchanged. -/
theorem command_dispose_preserves_handlers (st : RegistryState) (cmd : Command)
    (hfresh : lookupKey cmd.id st.commands = none) :
    ∃ st1 d, doRegisterCommand st cmd = (st1, .ok d) ∧
      (dispose d st1).handlers = st1.handlers ∧
      getCommand (dispose d st1) cmd.id = none ∧
      (∀ id2, id2 ≠ cmd.id → getCommand (dispose d st1) id2 = getCommand st1 id2) ∧
      (∀ id2 args, getActiveHandler (dispose d st1) id2 args =
        getActiveHandler st1 id2 args) := by
  have hnotsome : (lookupKey cmd.id st.commands).isSome = false := by simp [hfresh]
  refine ⟨{ st with commands := st.commands ++ [(cmd.id, cmd)] }, .cmdDisp cmd.id,
    ?_, rfl, ?_, ?_, ?_⟩
  · simp [doRegisterCommand, hnotsome]
  · simp [dispose, getCommand, lookupKey_deleteKey]
  · intro id2 hne
    simp [dispose, getCommand, lookupKey_deleteKey_ne _ _ _ hne]
  · intro id2 args
    rfl

/-- Witness for C8: registering `cmdX` on the empty registry and
releasing the returned disposable. -/
theorem command_dispose_preserves_handlers_witness :
    ∃ st1 d, doRegisterCommand st0 cmdX = (st1, .ok d) ∧
      (dispose d st1).handlers = st1.handlers ∧
      getCommand (dispose d st1) cmdX.id = none ∧
      (∀ id2, id2 ≠ cmdX.id → getCommand (dispose d st1) id2 = getCommand st1 id2) ∧
      (∀ id2 args, getActiveHandler (dispose d st1) id2 args =
        getActiveHandler st1 id2 args) :=
  command_dispose_preserves_handlers st0 cmdX rfl

/-- Witness for C10: registering the empty id on the empty registry
succeeds and is observable through `getCommand` and `commandIds`. -/
theorem registerCommand_empty_id_accepted_witness :
    (registerCommand st0 { id := "", label := none, iconClass := none } none).2 =
      .ok [Disp.cmdDisp ""] ∧
    "" ∈ commandIds
      (registerCommand st0 { id := "", label := none, iconClass := none } none).1 :=
  ⟨(registerCommand_empty_id_accepted st0 none none rfl).1,
    (registerCommand_empty_id_accepted st0 none none rfl).2.2⟩

end Theia
